import Mathlib

/-!
Verification of the paged-KV metadata builder and attention execution paths of
the AITER MLA backend (vllm/attention/backends/rocm_aiter_mla.py), via a
shallow embedding of the Python code as pure Lean functions over explicit
state records.
-/

namespace AiterMLA

/-- Sentinel slot id for tokens with no physical cache backing
(PAD_SLOT_ID from vllm/attention/backends/utils.py). -/
def PAD_SLOT_ID : Int := -1

/-- The mutable accumulator fields of AiterMLAMetadataBuilder that the
paged-KV bookkeeping touches: the three CSR-style lists, the running
total-blocks upper bound and the flat slot mapping. -/
structure BuilderState where
  paged_kv_indices : List Nat
  paged_kv_indptr : List Nat
  paged_kv_last_page_lens : List Nat
  total_blocks : Nat
  slot_mapping : List Int
deriving Repr, DecidableEq

/-- AiterMLAMetadataBuilder.prepare: paged_kv_indices = [], paged_kv_indptr = [0],
paged_kv_last_page_lens = [], total_blocks = 0 (slot_mapping is reset by the
parent prepare). -/
def prepare : BuilderState :=
  { paged_kv_indices := []
    paged_kv_indptr := [0]
    paged_kv_last_page_lens := []
    total_blocks := 0
    slot_mapping := [] }

/-- Valid-block count computed in _update_paged_kv_tensors:
seq_len // block_size + 1 if seq_len % block_size != 0 else seq_len // block_size. -/
def block_table_bound (block_size seq_len : Nat) : Nat :=
  if seq_len % block_size ≠ 0 then seq_len / block_size + 1 else seq_len / block_size

/-- Last-page length computed in _update_paged_kv_tensors:
seq_len % block_size, replaced by block_size when that remainder is 0. -/
def last_page_len (block_size seq_len : Nat) : Nat :=
  if seq_len % block_size = 0 then block_size else seq_len % block_size

/-- AiterMLAMetadataBuilder._update_paged_kv_tensors(block_table, seq_len):
adds len(block_table) to total_blocks, extends paged_kv_indices with
block_table[:block_table_bound], appends paged_kv_indptr[-1] + block_table_bound
to paged_kv_indptr, and appends the last-page length. -/
def update_paged_kv_tensors (block_size : Nat) (st : BuilderState)
    (block_table : List Nat) (seq_len : Nat) : BuilderState :=
  let bound := block_table_bound block_size seq_len
  { st with
    total_blocks := st.total_blocks + block_table.length
    paged_kv_indices := st.paged_kv_indices ++ block_table.take bound
    paged_kv_indptr := st.paged_kv_indptr ++ [st.paged_kv_indptr.getLastD 0 + bound]
    paged_kv_last_page_lens := st.paged_kv_last_page_lens ++ [last_page_len block_size seq_len] }

/-- One sequence descriptor as consumed by _update_paged_kv_tensors: the
block table (page list) and the total sequence length. -/
abbrev SeqDesc := List Nat × Nat

/-- Processing a whole batch: prepare followed by one
_update_paged_kv_tensors call per sequence descriptor. -/
def processBatch (block_size : Nat) (seqs : List SeqDesc) : BuilderState :=
  seqs.foldl (fun st d => update_paged_kv_tensors block_size st d.1 d.2) prepare

/-- Cumulative sums of per-sequence valid-block counts starting from a given
accumulator; the shape paged_kv_indptr takes after a run of updates. -/
def cumBounds (block_size : Nat) (a : Nat) : List SeqDesc → List Nat
  | [] => [a]
  | d :: rest => a :: cumBounds block_size (a + block_table_bound block_size d.2) rest

theorem cumBounds_ne_nil (bs a : Nat) (l : List SeqDesc) : cumBounds bs a l ≠ [] := by
  cases l <;> simp [cumBounds]

theorem cumBounds_head (bs a : Nat) (l : List SeqDesc) :
    (cumBounds bs a l).head? = some a := by
  cases l <;> simp [cumBounds]

theorem cumBounds_getD_zero (bs a : Nat) (l : List SeqDesc) :
    (cumBounds bs a l).getD 0 0 = a := by
  cases l <;> simp [cumBounds]

theorem getLastD_eq_getLast (l : List Nat) (h : l ≠ []) : l.getLastD 0 = l.getLast h := by
  cases l with
  | nil => exact absurd rfl h
  | cons a t =>
      rw [List.getLastD_eq_getLast?, List.getLast?_eq_getLast _ h]
      rfl

/-- Unfolding the fold of _update_paged_kv_tensors over a batch: the indptr
accumulator becomes the cumulative-sum list of valid-block counts. -/
theorem foldl_update_indptr (bs : Nat) :
    ∀ (seqs : List SeqDesc) (st : BuilderState) (h : st.paged_kv_indptr ≠ []),
    (seqs.foldl (fun s d => update_paged_kv_tensors bs s d.1 d.2) st).paged_kv_indptr
      = st.paged_kv_indptr.dropLast
        ++ cumBounds bs (st.paged_kv_indptr.getLast h) seqs := by
  intro seqs
  induction seqs with
  | nil =>
      intro st h
      simp [cumBounds, List.dropLast_append_getLast h]
  | cons d rest ih =>
      intro st h
      have hne : (update_paged_kv_tensors bs st d.1 d.2).paged_kv_indptr ≠ [] := by
        simp [update_paged_kv_tensors]
      rw [List.foldl_cons, ih _ hne]
      have hlast : (update_paged_kv_tensors bs st d.1 d.2).paged_kv_indptr.getLast hne
          = st.paged_kv_indptr.getLast h + block_table_bound bs d.2 := by
        simp [update_paged_kv_tensors, List.getLast_append, List.getLast?_eq_getLast _ h]
      have hdrop : (update_paged_kv_tensors bs st d.1 d.2).paged_kv_indptr.dropLast
          = st.paged_kv_indptr := by
        simp [update_paged_kv_tensors]
      rw [hlast, hdrop, cumBounds]
      have hsplit : st.paged_kv_indptr.dropLast
            ++ (st.paged_kv_indptr.getLast h
                :: cumBounds bs (st.paged_kv_indptr.getLast h + block_table_bound bs d.2) rest)
          = (st.paged_kv_indptr.dropLast ++ [st.paged_kv_indptr.getLast h])
            ++ cumBounds bs (st.paged_kv_indptr.getLast h + block_table_bound bs d.2) rest := by
        simp
      rw [hsplit, List.dropLast_append_getLast h]

theorem processBatch_indptr (bs : Nat) (seqs : List SeqDesc) :
    (processBatch bs seqs).paged_kv_indptr = cumBounds bs 0 seqs := by
  have h : (prepare).paged_kv_indptr ≠ [] := by simp [prepare]
  have := foldl_update_indptr bs seqs prepare h
  simpa [processBatch, prepare] using this

theorem cumBounds_length (bs a : Nat) (l : List SeqDesc) :
    (cumBounds bs a l).length = l.length + 1 := by
  induction l generalizing a with
  | nil => simp [cumBounds]
  | cons d rest ih => simp [cumBounds, ih]

theorem cumBounds_getD_succ (bs : Nat) (l : List SeqDesc) :
    ∀ (a i : Nat), i < l.length →
    (cumBounds bs a l).getD (i + 1) 0
      = (cumBounds bs a l).getD i 0 + block_table_bound bs (l.getD i ([], 0)).2 := by
  induction l with
  | nil => intro a i hi; simp at hi
  | cons d rest ih =>
      intro a i hi
      cases i with
      | zero =>
          have h0 := cumBounds_getD_zero bs (a + block_table_bound bs d.2) rest
          simp [cumBounds]
          simpa using h0
      | succ j =>
          have hj : j < rest.length := by simpa using hi
          simpa [cumBounds] using ih (a + block_table_bound bs d.2) j hj

theorem cumBounds_chain (bs : Nat) (l : List SeqDesc) :
    ∀ a : Nat, (cumBounds bs a l).Chain' (· ≤ ·) := by
  induction l with
  | nil => intro a; simp [cumBounds]
  | cons d rest ih =>
      intro a
      rw [cumBounds, List.chain'_cons']
      refine ⟨?_, ih _⟩
      intro y hy
      rw [cumBounds_head] at hy
      cases hy
      exact Nat.le_add_right a _

/-- Sum of per-sequence valid-block counts of a batch. -/
def sumBounds (bs : Nat) (l : List SeqDesc) : Nat :=
  (l.map (fun d => block_table_bound bs d.2)).sum

theorem getLastD_of_ne_nil (l : List Nat) (d : Nat) (h : l ≠ []) :
    l.getLastD d = l.getLastD 0 := by
  rw [List.getLastD_eq_getLast?, List.getLastD_eq_getLast?, List.getLast?_eq_getLast _ h]
  rfl

theorem cumBounds_getLastD (bs : Nat) (l : List SeqDesc) :
    ∀ a : Nat, (cumBounds bs a l).getLastD 0 = a + sumBounds bs l := by
  induction l with
  | nil => intro a; simp [cumBounds, sumBounds]
  | cons d rest ih =>
      intro a
      have hne := cumBounds_ne_nil bs (a + block_table_bound bs d.2) rest
      rw [cumBounds, List.getLastD_cons, getLastD_of_ne_nil _ _ hne, ih]
      simp [sumBounds]
      omega

/-- Concatenation of the per-sequence truncated block tables of a batch. -/
def indicesOf (bs : Nat) (l : List SeqDesc) : List Nat :=
  (l.map (fun d => d.1.take (block_table_bound bs d.2))).flatten

/-- Per-sequence last-page lengths of a batch. -/
def lastLensOf (bs : Nat) (l : List SeqDesc) : List Nat :=
  l.map (fun d => last_page_len bs d.2)

theorem foldl_update_indices (bs : Nat) :
    ∀ (seqs : List SeqDesc) (st : BuilderState),
    (seqs.foldl (fun s d => update_paged_kv_tensors bs s d.1 d.2) st).paged_kv_indices
      = st.paged_kv_indices ++ indicesOf bs seqs := by
  intro seqs
  induction seqs with
  | nil => intro st; simp [indicesOf]
  | cons d rest ih =>
      intro st
      rw [List.foldl_cons, ih]
      simp [update_paged_kv_tensors, indicesOf]

theorem foldl_update_lastLens (bs : Nat) :
    ∀ (seqs : List SeqDesc) (st : BuilderState),
    (seqs.foldl (fun s d => update_paged_kv_tensors bs s d.1 d.2) st).paged_kv_last_page_lens
      = st.paged_kv_last_page_lens ++ lastLensOf bs seqs := by
  intro seqs
  induction seqs with
  | nil => intro st; simp [lastLensOf]
  | cons d rest ih =>
      intro st
      rw [List.foldl_cons, ih]
      simp [update_paged_kv_tensors, lastLensOf]

theorem foldl_update_total_blocks (bs : Nat) :
    ∀ (seqs : List SeqDesc) (st : BuilderState),
    (seqs.foldl (fun s d => update_paged_kv_tensors bs s d.1 d.2) st).total_blocks
      = st.total_blocks + (seqs.map (fun d => d.1.length)).sum := by
  intro seqs
  induction seqs with
  | nil => intro st; simp
  | cons d rest ih =>
      intro st
      rw [List.foldl_cons, ih]
      simp [update_paged_kv_tensors]
      omega

theorem foldl_update_slot_mapping (bs : Nat) :
    ∀ (seqs : List SeqDesc) (st : BuilderState),
    (seqs.foldl (fun s d => update_paged_kv_tensors bs s d.1 d.2) st).slot_mapping
      = st.slot_mapping := by
  intro seqs
  induction seqs with
  | nil => intro st; rfl
  | cons d rest ih =>
      intro st
      rw [List.foldl_cons, ih]
      simp [update_paged_kv_tensors]

theorem processBatch_indices (bs : Nat) (seqs : List SeqDesc) :
    (processBatch bs seqs).paged_kv_indices = indicesOf bs seqs := by
  simpa [processBatch, prepare] using foldl_update_indices bs seqs prepare

theorem processBatch_lastLens (bs : Nat) (seqs : List SeqDesc) :
    (processBatch bs seqs).paged_kv_last_page_lens = lastLensOf bs seqs := by
  simpa [processBatch, prepare] using foldl_update_lastLens bs seqs prepare

theorem processBatch_total_blocks (bs : Nat) (seqs : List SeqDesc) :
    (processBatch bs seqs).total_blocks = (seqs.map (fun d => d.1.length)).sum := by
  simpa [processBatch, prepare] using foldl_update_total_blocks bs seqs prepare

theorem last_page_len_pos (bs s : Nat) (hbs : 0 < bs) : 1 ≤ last_page_len bs s := by
  unfold last_page_len
  split
  · exact hbs
  · next h => exact Nat.one_le_iff_ne_zero.mpr h

theorem last_page_len_le (bs s : Nat) (hbs : 0 < bs) : last_page_len bs s ≤ bs := by
  unfold last_page_len
  split
  · exact Nat.le_refl bs
  · exact Nat.le_of_lt (Nat.mod_lt _ hbs)

/-- C1 counterexample: with the builder processing a sequence of length 0
(block_size 16 here for illustration), the appended last-page length equals
block_size even though seq_len > 0 fails, so the stated iff is false. -/
theorem last_page_len_iff_cex :
    (update_paged_kv_tensors 16 prepare [] 0).paged_kv_last_page_lens.getLastD 0 = 16
    ∧ ¬ (0 % 16 = 0 ∧ 0 < 0) := by decide

/-- C1 (amended): the last-page length appended by _update_paged_kv_tensors is
seq_len % block_size when nonzero and block_size otherwise, hence lies in
[1, block_size]; for seq_len > 0 it equals block_size iff
seq_len % block_size = 0 (at seq_len = 0 it also equals block_size). -/
theorem update_last_page_len_spec (bs s : Nat) (st : BuilderState) (bt : List Nat)
    (hbs : 0 < bs) :
    (update_paged_kv_tensors bs st bt s).paged_kv_last_page_lens
      = st.paged_kv_last_page_lens ++ [last_page_len bs s]
    ∧ last_page_len bs s = (if s % bs ≠ 0 then s % bs else bs)
    ∧ 1 ≤ last_page_len bs s ∧ last_page_len bs s ≤ bs
    ∧ (0 < s → (last_page_len bs s = bs ↔ s % bs = 0)) := by
  refine ⟨by simp [update_paged_kv_tensors], ?_, last_page_len_pos bs s hbs,
    last_page_len_le bs s hbs, ?_⟩
  · unfold last_page_len
    split <;> simp_all
  · intro _
    constructor
    · intro hlen
      by_contra hmod
      have hlt : s % bs < bs := Nat.mod_lt _ hbs
      unfold last_page_len at hlen
      rw [if_neg hmod] at hlen
      omega
    · intro hmod
      unfold last_page_len
      rw [if_pos hmod]

theorem update_last_page_len_spec_witness :
    0 < 16
    ∧ (update_paged_kv_tensors 16 prepare [5, 7] 15).paged_kv_last_page_lens
        = prepare.paged_kv_last_page_lens ++ [last_page_len 16 15] :=
  ⟨by decide, (update_last_page_len_spec 16 15 prepare [5, 7] (by decide)).1⟩

/-- C2: after prepare and any run of _update_paged_kv_tensors calls, the
paged_kv_indptr list starts at 0, has one entry per sequence plus one, is
non-decreasing, and each consecutive difference is the valid-page count
block_table_bound of the corresponding sequence. -/
theorem indptr_csr (bs : Nat) (seqs : List SeqDesc) :
    (processBatch bs seqs).paged_kv_indptr.getD 0 0 = 0
    ∧ (processBatch bs seqs).paged_kv_indptr.length = seqs.length + 1
    ∧ (processBatch bs seqs).paged_kv_indptr.Chain' (· ≤ ·)
    ∧ ∀ i, i < seqs.length →
        (processBatch bs seqs).paged_kv_indptr.getD (i + 1) 0
          = (processBatch bs seqs).paged_kv_indptr.getD i 0
            + block_table_bound bs (seqs.getD i ([], 0)).2 := by
  rw [processBatch_indptr]
  exact ⟨cumBounds_getD_zero bs 0 seqs, cumBounds_length bs 0 seqs,
    cumBounds_chain bs seqs 0, fun i hi => cumBounds_getD_succ bs seqs 0 i hi⟩

theorem indptr_csr_witness :
    (processBatch 16 [([5, 7], 15), ([3, 4], 32)]).paged_kv_indptr.getD 1 0
      = (processBatch 16 [([5, 7], 15), ([3, 4], 32)]).paged_kv_indptr.getD 0 0
        + block_table_bound 16 15 :=
  (indptr_csr 16 [([5, 7], 15), ([3, 4], 32)]).2.2.2 0 (by decide)

/-- C6 counterexample: a sequence of length 1 with an empty block table has
valid-page count 1 > 0 pages available, yet _update_paged_kv_tensors does not
fail: it advances paged_kv_indptr by the full count while paged_kv_indices
receives no page id at all. -/
theorem capacity_overflow_cex :
    (update_paged_kv_tensors 1 prepare [] 1).paged_kv_indptr = [0, 1]
    ∧ (update_paged_kv_tensors 1 prepare [] 1).paged_kv_indices = []
    ∧ block_table_bound 1 1 = 1 ∧ (List.length ([] : List Nat)) < 1 := by decide

/-- C6 (amended): when the valid-page count exceeds the block-table length,
_update_paged_kv_tensors silently truncates instead of failing: paged_kv_indptr
advances by the full valid-page count while paged_kv_indices is extended by
only the available block-table entries, fewer than the count. -/
theorem capacity_overflow_truncates (bs s : Nat) (st : BuilderState) (bt : List Nat)
    (h : bt.length < block_table_bound bs s) :
    (update_paged_kv_tensors bs st bt s).paged_kv_indptr
      = st.paged_kv_indptr ++ [st.paged_kv_indptr.getLastD 0 + block_table_bound bs s]
    ∧ (update_paged_kv_tensors bs st bt s).paged_kv_indices = st.paged_kv_indices ++ bt
    ∧ bt.length < block_table_bound bs s := by
  refine ⟨by simp [update_paged_kv_tensors], ?_, h⟩
  simp [update_paged_kv_tensors, List.take_of_length_le (Nat.le_of_lt h)]

theorem capacity_overflow_truncates_witness :
    (List.length ([] : List Nat)) < block_table_bound 1 1
    ∧ (update_paged_kv_tensors 1 prepare [] 1).paged_kv_indices
        = prepare.paged_kv_indices ++ [] :=
  ⟨by decide, (capacity_overflow_truncates 1 1 prepare [] (by decide)).2.1⟩

/-- Finalized metadata lists of AiterMLAMetadataBuilder.build; device tensors
are modelled as the lists they are created from, and are None exactly when the
builder state carries an empty indptr list, mirroring the guard in build. -/
structure BuiltMetadata where
  paged_kv_indptr : Option (List Nat)
  paged_kv_indices : Option (List Nat)
  paged_kv_last_page_lens : Option (List Nat)
  block_table_bound_tensor : Option (List Nat)
  slot_mapping : List Int
deriving Repr, DecidableEq

/-- AiterMLAMetadataBuilder.build together with the captured-graph padding.
Modelled from the spec for the one part outside src/: the parent
MLACommonMetadataBuilder.build invokes get_block_tables_with_captured_graph
exactly when use_captured_graph = (cuda_graph_pad_size != -1), which per the
finalization rule appends pad-count PAD_SLOT entries to slot_mapping (the body
of get_block_tables_with_captured_graph is in src/ and does exactly that).
The indptr / last-page-lens extension and the paged_kv_indices fill to
total_blocks follow the source of build directly. -/
def buildMetadata (st : BuilderState) (cuda_graph_pad_size : Int) : BuiltMetadata :=
  let use_captured_graph := cuda_graph_pad_size ≠ -1
  let st1 := if use_captured_graph then
      { st with slot_mapping :=
          st.slot_mapping ++ List.replicate cuda_graph_pad_size.toNat PAD_SLOT_ID }
    else st
  let st2 := if use_captured_graph then
      { st1 with
        paged_kv_indptr := st1.paged_kv_indptr
          ++ List.replicate cuda_graph_pad_size.toNat (st1.paged_kv_indptr.getLastD 0)
        paged_kv_last_page_lens := st1.paged_kv_last_page_lens
          ++ List.replicate cuda_graph_pad_size.toNat 0 }
    else st1
  if 0 < st2.paged_kv_indptr.length then
    { paged_kv_indptr := some st2.paged_kv_indptr
      paged_kv_indices := some (st2.paged_kv_indices
        ++ List.replicate (st2.total_blocks - st2.paged_kv_indices.length) 0)
      paged_kv_last_page_lens := some st2.paged_kv_last_page_lens
      block_table_bound_tensor := some (List.replicate (st2.paged_kv_indptr.length - 1) 0)
      slot_mapping := st2.slot_mapping }
  else
    { paged_kv_indptr := none
      paged_kv_indices := none
      paged_kv_last_page_lens := none
      block_table_bound_tensor := none
      slot_mapping := st2.slot_mapping }

theorem buildMetadata_natPad (st : BuilderState) (P : Nat) (h : st.paged_kv_indptr ≠ []) :
    buildMetadata st (P : Int) =
      { paged_kv_indptr := some (st.paged_kv_indptr
          ++ List.replicate P (st.paged_kv_indptr.getLastD 0))
        paged_kv_indices := some (st.paged_kv_indices
          ++ List.replicate (st.total_blocks - st.paged_kv_indices.length) 0)
        paged_kv_last_page_lens := some (st.paged_kv_last_page_lens ++ List.replicate P 0)
        block_table_bound_tensor := some (List.replicate (st.paged_kv_indptr.length + P - 1) 0)
        slot_mapping := st.slot_mapping ++ List.replicate P PAD_SLOT_ID } := by
  have hc : ((P : Int)) ≠ -1 := by omega
  have htn : ((P : Int)).toNat = P := by omega
  have hpos : 0 < st.paged_kv_indptr.length := List.length_pos.mpr h
  have hlen : 0 < (st.paged_kv_indptr
      ++ List.replicate P (st.paged_kv_indptr.getLastD 0)).length := by
    rw [List.length_append]
    omega
  simp [buildMetadata, hc, htn, hlen, Nat.add_comm]
  intro _
  exact h

theorem buildMetadata_unpadded (st : BuilderState) (h : st.paged_kv_indptr ≠ []) :
    buildMetadata st (-1) =
      { paged_kv_indptr := some st.paged_kv_indptr
        paged_kv_indices := some (st.paged_kv_indices
          ++ List.replicate (st.total_blocks - st.paged_kv_indices.length) 0)
        paged_kv_last_page_lens := some st.paged_kv_last_page_lens
        block_table_bound_tensor := some (List.replicate (st.paged_kv_indptr.length - 1) 0)
        slot_mapping := st.slot_mapping } := by
  have hpos : 0 < st.paged_kv_indptr.length := List.length_pos.mpr h
  simp [buildMetadata, hpos]

theorem processBatch_indptr_ne_nil (bs : Nat) (seqs : List SeqDesc) :
    (processBatch bs seqs).paged_kv_indptr ≠ [] := by
  rw [processBatch_indptr]
  exact cumBounds_ne_nil bs 0 seqs

/-- C3: building a batch and finalizing with replay pad count P ≥ 0 leaves the
first batch_size + 1 pointer entries and batch_size last-page lengths exactly
as in the unpadded build, and appends P copies of the last pointer value,
P zero last-page lengths, and P PAD_SLOT slot-mapping entries. -/
theorem build_replay_padding (bs : Nat) (seqs : List SeqDesc) (P : Nat) :
    ∃ ptr lens,
      (buildMetadata (processBatch bs seqs) (-1)).paged_kv_indptr = some ptr
      ∧ (buildMetadata (processBatch bs seqs) (-1)).paged_kv_last_page_lens = some lens
      ∧ ptr.length = seqs.length + 1
      ∧ lens.length = seqs.length
      ∧ (buildMetadata (processBatch bs seqs) (P : Int)).paged_kv_indptr
          = some (ptr ++ List.replicate P (ptr.getLastD 0))
      ∧ (buildMetadata (processBatch bs seqs) (P : Int)).paged_kv_last_page_lens
          = some (lens ++ List.replicate P 0)
      ∧ (buildMetadata (processBatch bs seqs) (P : Int)).slot_mapping
          = (buildMetadata (processBatch bs seqs) (-1)).slot_mapping
            ++ List.replicate P PAD_SLOT_ID := by
  have hne := processBatch_indptr_ne_nil bs seqs
  refine ⟨(processBatch bs seqs).paged_kv_indptr,
    (processBatch bs seqs).paged_kv_last_page_lens, ?_, ?_, ?_, ?_, ?_, ?_, ?_⟩
  · rw [buildMetadata_unpadded _ hne]
  · rw [buildMetadata_unpadded _ hne]
  · rw [processBatch_indptr, cumBounds_length]
  · rw [processBatch_lastLens]
    simp [lastLensOf]
  · rw [buildMetadata_natPad _ _ hne]
  · rw [buildMetadata_natPad _ _ hne]
  · rw [buildMetadata_natPad _ _ hne, buildMetadata_unpadded _ hne]

theorem getD_replicate_le (c P j : Nat) : (List.replicate P c).getD j 0 ≤ c := by
  by_cases h : j < P
  · rw [List.getD_eq_getElem _ _ (by simpa using h)]
    simp
  · rw [List.getD_eq_default _ _ (by simpa using Nat.le_of_not_lt h)]
    exact Nat.zero_le c

theorem getD_replicate_lt (c P j : Nat) (h : j < P) : (List.replicate P c).getD j 0 = c := by
  rw [List.getD_eq_getElem _ _ (by simpa using h)]
  simp

theorem cumBounds_getD_le (bs : Nat) (l : List SeqDesc) :
    ∀ (a i : Nat), (cumBounds bs a l).getD i 0 ≤ (cumBounds bs a l).getLastD 0 := by
  induction l with
  | nil =>
      intro a i
      cases i with
      | zero => simp [cumBounds]
      | succ j => simp [cumBounds]
  | cons d rest ih =>
      intro a i
      rw [cumBounds, List.getLastD_cons,
        getLastD_of_ne_nil _ _ (cumBounds_ne_nil bs (a + block_table_bound bs d.2) rest)]
      cases i with
      | zero =>
          rw [List.getD_cons_zero, cumBounds_getLastD]
          omega
      | succ j =>
          rw [List.getD_cons_succ]
          exact ih (a + block_table_bound bs d.2) j

theorem cumBounds_getD_length (bs : Nat) (l : List SeqDesc) :
    ∀ a : Nat, (cumBounds bs a l).getD l.length 0 = (cumBounds bs a l).getLastD 0 := by
  induction l with
  | nil => intro a; simp [cumBounds]
  | cons d rest ih =>
      intro a
      rw [cumBounds, List.length_cons, List.getD_cons_succ, ih, List.getLastD_cons,
        getLastD_of_ne_nil _ _ (cumBounds_ne_nil bs (a + block_table_bound bs d.2) rest),
        getLastD_of_ne_nil _ a (cumBounds_ne_nil bs (a + block_table_bound bs d.2) rest)]

theorem indicesOf_length_le (bs : Nat) (seqs : List SeqDesc) :
    (indicesOf bs seqs).length ≤ (seqs.map (fun d => d.1.length)).sum := by
  induction seqs with
  | nil => simp [indicesOf]
  | cons d rest ih =>
      simp only [indicesOf, List.map_cons, List.flatten_cons, List.length_append,
        List.length_take, List.sum_cons] at *
      omega

theorem indicesOf_length_eq (bs : Nat) (seqs : List SeqDesc)
    (hv : ∀ d ∈ seqs, block_table_bound bs d.2 ≤ d.1.length) :
    (indicesOf bs seqs).length = sumBounds bs seqs := by
  induction seqs with
  | nil => simp [indicesOf, sumBounds]
  | cons d rest ih =>
      have hd := hv d (by simp)
      have hrest : ∀ x ∈ rest, block_table_bound bs x.2 ≤ x.1.length := by
        intro x hx
        exact hv x (by simp [hx])
      simp only [indicesOf, sumBounds, List.map_cons, List.flatten_cons,
        List.length_append, List.length_take, List.sum_cons] at *
      rw [ih hrest]
      omega

theorem padded_ptr_entries_le (bs P : Nat) (seqs : List SeqDesc) (i : Nat) :
    (cumBounds bs 0 seqs
      ++ List.replicate P ((cumBounds bs 0 seqs).getLastD 0)).getD i 0
      ≤ (cumBounds bs 0 seqs).getLastD 0 := by
  by_cases h : i < (cumBounds bs 0 seqs).length
  · rw [List.getD_append _ _ _ _ h]
    exact cumBounds_getD_le bs seqs 0 i
  · rw [List.getD_append_right _ _ _ _ (Nat.le_of_not_lt h)]
    exact getD_replicate_le _ _ _

theorem padded_ptr_pad_rows_eq (bs P : Nat) (seqs : List SeqDesc) (i : Nat)
    (hi : seqs.length ≤ i)
    (hilen : i + 1 < (cumBounds bs 0 seqs
      ++ List.replicate P ((cumBounds bs 0 seqs).getLastD 0)).length) :
    (cumBounds bs 0 seqs
      ++ List.replicate P ((cumBounds bs 0 seqs).getLastD 0)).getD (i + 1) 0
      = (cumBounds bs 0 seqs
          ++ List.replicate P ((cumBounds bs 0 seqs).getLastD 0)).getD i 0 := by
  have hclen : (cumBounds bs 0 seqs).length = seqs.length + 1 := cumBounds_length bs 0 seqs
  rw [List.length_append, List.length_replicate, hclen] at hilen
  rcases Nat.eq_or_lt_of_le hi with heq | hlt
  · have hieq : i = seqs.length := heq.symm
    have hP : 0 < P := by omega
    rw [List.getD_append_right _ _ _ _ (by omega),
      List.getD_append _ _ _ _ (by omega)]
    have h1 : i + 1 - (cumBounds bs 0 seqs).length = 0 := by omega
    rw [h1, getD_replicate_lt _ _ 0 hP, hieq]
    exact (cumBounds_getD_length bs seqs 0).symm
  · rw [List.getD_append_right _ _ _ _ (by omega),
      List.getD_append_right _ _ _ _ (by omega),
      getD_replicate_lt _ _ _ (by omega), getD_replicate_lt _ _ _ (by omega)]

/-- C4: after finalization with any pad count P, paged_kv_indices is the live
prefix extended with filler zeros up to length total_blocks, and, under the
caller contract that every sequence has at least its valid-page count of
blocks, every position at or beyond the live prefix lies outside the indptr
span of every row; each padding row's pointer entry repeats the previous
value, so its span is empty. -/
theorem build_indices_fill (bs : Nat) (seqs : List SeqDesc) (P : Nat)
    (hv : ∀ d ∈ seqs, block_table_bound bs d.2 ≤ d.1.length) :
    ∃ idx ptr,
      (buildMetadata (processBatch bs seqs) (P : Int)).paged_kv_indices = some idx
      ∧ (buildMetadata (processBatch bs seqs) (P : Int)).paged_kv_indptr = some ptr
      ∧ idx = (processBatch bs seqs).paged_kv_indices
          ++ List.replicate
              ((processBatch bs seqs).total_blocks
                - (processBatch bs seqs).paged_kv_indices.length) 0
      ∧ idx.length = (processBatch bs seqs).total_blocks
      ∧ (∀ p, (processBatch bs seqs).paged_kv_indices.length ≤ p →
          ∀ i, ¬(ptr.getD i 0 ≤ p ∧ p < ptr.getD (i + 1) 0))
      ∧ (∀ i, seqs.length ≤ i → i + 1 < ptr.length →
          ptr.getD (i + 1) 0 = ptr.getD i 0) := by
  have hne := processBatch_indptr_ne_nil bs seqs
  have hbuild := buildMetadata_natPad (processBatch bs seqs) P hne
  have hlive_le : (processBatch bs seqs).paged_kv_indices.length
      ≤ (processBatch bs seqs).total_blocks := by
    rw [processBatch_indices, processBatch_total_blocks]
    exact indicesOf_length_le bs seqs
  have hlive : (processBatch bs seqs).paged_kv_indices.length
      = (cumBounds bs 0 seqs).getLastD 0 := by
    rw [processBatch_indices, indicesOf_length_eq bs seqs hv, cumBounds_getLastD bs seqs 0]
    omega
  refine ⟨(processBatch bs seqs).paged_kv_indices
      ++ List.replicate
          ((processBatch bs seqs).total_blocks
            - (processBatch bs seqs).paged_kv_indices.length) 0,
    (processBatch bs seqs).paged_kv_indptr
      ++ List.replicate P ((processBatch bs seqs).paged_kv_indptr.getLastD 0),
    ?_, ?_, rfl, ?_, ?_, ?_⟩
  · rw [hbuild]
  · rw [hbuild]
  · rw [List.length_append, List.length_replicate]
    omega
  · intro p hp i hspan
    obtain ⟨_, h2⟩ := hspan
    rw [processBatch_indptr] at h2
    have hle := padded_ptr_entries_le bs P seqs (i + 1)
    omega
  · intro i hi hilen
    rw [processBatch_indptr] at hilen ⊢
    exact padded_ptr_pad_rows_eq bs P seqs i hi hilen

theorem build_indices_fill_witness :
    (∀ d ∈ [([5, 7], 15), ([3, 4], 32)], block_table_bound 16 d.2 ≤ d.1.length)
    ∧ ∃ idx ptr,
      (buildMetadata (processBatch 16 [([5, 7], 15), ([3, 4], 32)]) ((3 : Nat) : Int)).paged_kv_indices
        = some idx
      ∧ (buildMetadata (processBatch 16 [([5, 7], 15), ([3, 4], 32)]) ((3 : Nat) : Int)).paged_kv_indptr
        = some ptr
      ∧ idx = (processBatch 16 [([5, 7], 15), ([3, 4], 32)]).paged_kv_indices
          ++ List.replicate
              ((processBatch 16 [([5, 7], 15), ([3, 4], 32)]).total_blocks
                - (processBatch 16 [([5, 7], 15), ([3, 4], 32)]).paged_kv_indices.length) 0
      ∧ idx.length = (processBatch 16 [([5, 7], 15), ([3, 4], 32)]).total_blocks
      ∧ (∀ p, (processBatch 16 [([5, 7], 15), ([3, 4], 32)]).paged_kv_indices.length ≤ p →
          ∀ i, ¬(ptr.getD i 0 ≤ p ∧ p < ptr.getD (i + 1) 0))
      ∧ (∀ i, ([([5, 7], 15), ([3, 4], 32)] : List SeqDesc).length ≤ i → i + 1 < ptr.length →
          ptr.getD (i + 1) 0 = ptr.getD i 0) :=
  ⟨by decide, build_indices_fill 16 [([5, 7], 15), ([3, 4], 32)] 3 (by decide)⟩

/-- Modelled from the spec: is_block_tables_empty lives in
vllm/attention/backends/utils.py, not under src/. A profiling run is a
sequence group whose block tables are absent or all empty. -/
def is_block_tables_empty (block_tables : Option (List (Nat × List Nat))) : Bool :=
  match block_tables with
  | none => true
  | some m => m.all (fun p => p.2.isEmpty)

/-- Modelled from the spec: compute_slot_mapping lives in
vllm/attention/backends/utils.py, not under src/. For each new token position
p from start_idx to query_len - 1 the absolute position is context_len + p;
a profiling run emits PAD_SLOT, otherwise the slot is
page_list[absolute // page_size] * page_size + absolute % page_size. -/
def compute_slot_mapping (is_profile_run : Bool) (query_len context_len start_idx
    page_size : Nat) (page_list : List Nat) : List Int :=
  ((List.range query_len).drop start_idx).map (fun p =>
    if is_profile_run then PAD_SLOT_ID
    else ((page_list.getD ((context_len + p) / page_size) 0 * page_size
            + (context_len + p) % page_size : Nat) : Int))

/-- Per-sequence body of AiterMLAMetadataBuilder._add_seq_group: append the
computed slot mapping, then return early on a profiling run, otherwise update
the paged-KV tensors. The returned Bool records the early return. -/
def add_seq_group_step (bs : Nat) (st : BuilderState) (is_profile_run : Bool)
    (block_table : List Nat) (seq_len context_len query_len start_idx : Nat) :
    BuilderState × Bool :=
  let slots := compute_slot_mapping is_profile_run query_len context_len start_idx
    bs block_table
  let st1 := { st with slot_mapping := st.slot_mapping ++ slots }
  if is_profile_run then (st1, true)
  else (update_paged_kv_tensors bs st1 block_table seq_len, false)

/-- C5: on a profiling run (empty block tables), the per-sequence step of
_add_seq_group appends only PAD_SLOT entries to slot_mapping and returns
early, leaving paged_kv_indices, paged_kv_indptr and paged_kv_last_page_lens
untouched. -/
theorem add_seq_group_profile (bs : Nat) (st : BuilderState)
    (btabs : Option (List (Nat × List Nat))) (bt : List Nat)
    (s cl ql si : Nat) (hprof : is_block_tables_empty btabs = true) :
    (add_seq_group_step bs st (is_block_tables_empty btabs) bt s cl ql si).1.slot_mapping
      = st.slot_mapping ++ List.replicate (ql - si) PAD_SLOT_ID
    ∧ (add_seq_group_step bs st (is_block_tables_empty btabs) bt s cl ql si).2 = true
    ∧ (add_seq_group_step bs st (is_block_tables_empty btabs) bt s cl ql si).1.paged_kv_indices
        = st.paged_kv_indices
    ∧ (add_seq_group_step bs st (is_block_tables_empty btabs) bt s cl ql si).1.paged_kv_indptr
        = st.paged_kv_indptr
    ∧ (add_seq_group_step bs st (is_block_tables_empty btabs) bt s cl ql si).1.paged_kv_last_page_lens
        = st.paged_kv_last_page_lens := by
  rw [hprof]
  refine ⟨?_, rfl, rfl, rfl, rfl⟩
  simp [add_seq_group_step, compute_slot_mapping, List.map_const']

theorem add_seq_group_profile_witness :
    is_block_tables_empty (some [(0, [])]) = true
    ∧ (add_seq_group_step 16 prepare (is_block_tables_empty (some [(0, [])]))
        [] 4 0 4 0).1.slot_mapping
      = prepare.slot_mapping ++ List.replicate (4 - 0) PAD_SLOT_ID :=
  ⟨by decide,
    (add_seq_group_profile 16 prepare (some [(0, [])]) [] 4 0 4 0 (by decide)).1⟩

/-- Opaque kernel interfaces used by AiterMLAImpl._forward_prefill and
_compute_prefill_context: tensors are values of an abstract type α;
flash_attn_varlen_func over the new tokens yields self_attn_out (and
self_attn_lse when return_lse is requested), the i-th context-chunk call
yields chunk_attn i, and merge_attn_states is the opaque binary merge. -/
structure PrefillKernels (α : Type) where
  self_attn_out : α
  self_attn_lse : α
  chunk_attn : Nat → α × α
  merge : α × α → α × α → α × α

/-- The has_context test of _forward_prefill:
context_lens_tensor is not None and context_lens_tensor.max() > 0. -/
def hasContext (context_lens : Option (List Nat)) : Bool :=
  match context_lens with
  | none => false
  | some l => decide (0 < l.foldr max 0)

/-- Control flow of AiterMLAImpl._compute_prefill_context: iterate over the
context chunks, taking the first chunk's result directly and merging each
later chunk into the accumulator via merge_attn_states. -/
def compute_prefill_context {α : Type} (K : PrefillKernels α) (iters : Nat) :
    Option (α × α) :=
  (List.range iters).foldl
    (fun acc i =>
      match acc with
      | none => some (K.chunk_attn i)
      | some prev => some (K.merge prev (K.chunk_attn i)))
    none

/-- Control flow of AiterMLAImpl._forward_prefill up to (excluding) the
v-padding removal and output projection: with context, the merged context
result is merged once more with the causal self-attention result; without
context the causal self-attention output is used directly. -/
def forward_prefill_pre {α : Type} (K : PrefillKernels α)
    (context_lens : Option (List Nat)) (iters : Nat) : Option α :=
  if hasContext context_lens then
    match compute_prefill_context K iters with
    | some p => some (K.merge p (K.self_attn_out, K.self_attn_lse)).1
    | none => none
  else
    some K.self_attn_out

/-- C7: with no cached context (context_lens_tensor absent or all-zero), the
pre-projection prefill result is exactly the causal flash-attention output
with no merge applied; and _compute_prefill_context with exactly one chunk
returns that chunk's (output, lse) unchanged — both hold for every merge
function, so merge_attn_states is never consulted. -/
theorem forward_prefill_no_context {α : Type} (K : PrefillKernels α)
    (context_lens : Option (List Nat)) (iters : Nat)
    (h : hasContext context_lens = false) :
    forward_prefill_pre K context_lens iters = some K.self_attn_out
    ∧ compute_prefill_context K 1 = some (K.chunk_attn 0) := by
  constructor
  · rw [forward_prefill_pre, h]
    simp
  · rfl

theorem forward_prefill_no_context_witness :
    hasContext none = false
    ∧ forward_prefill_pre
        (PrefillKernels.mk 3 4 (fun i => (i + 10, i + 20))
          (fun p s => (p.1 + s.1, p.2 + s.2))) none 0
      = some 3 :=
  ⟨by decide,
    (forward_prefill_no_context
      (PrefillKernels.mk 3 4 (fun i => (i + 10, i + 20))
        (fun p s => (p.1 + s.1, p.2 + s.2))) none 0 (by decide)).1⟩

/-- Pythonic truthiness of the optional alibi_slopes list argument. -/
def truthy_alibi (a : Option (List Rat)) : Bool :=
  match a with
  | none => false
  | some l => !l.isEmpty

/-- Pythonic truthiness of the optional sliding_window int argument. -/
def truthy_window (w : Option Int) : Bool :=
  match w with
  | none => false
  | some n => decide (n ≠ 0)

/-- Pythonic truthiness of the optional blocksparse_params dict argument. -/
def truthy_bsp (b : Option (List (String × Nat))) : Bool :=
  match b with
  | none => false
  | some l => !l.isEmpty

/-- Pythonic truthiness of the optional logits_soft_cap float argument,
floats modelled as rationals. -/
def truthy_cap (c : Option Rat) : Bool :=
  match c with
  | none => false
  | some q => decide (q ≠ 0)

/-- AiterMLAImpl.__init__ checks: assert that AITER MLA is enabled, then
raise NotImplementedError when any of the four unsupported feature arguments
is truthy. -/
def AiterMLAImpl_init (aiter_enabled : Bool) (alibi_slopes : Option (List Rat))
    (sliding_window : Option Int) (blocksparse_params : Option (List (String × Nat)))
    (logits_soft_cap : Option Rat) : Except String Unit :=
  if !aiter_enabled then
    .error "Aiter MLA is initialized without being enabled properly."
  else if truthy_alibi alibi_slopes || truthy_window sliding_window
      || truthy_bsp blocksparse_params || truthy_cap logits_soft_cap then
    .error "Aiter MLA does not support one of the following: alibi_slopes, sliding_window, blocksparse_params, logits_soft_cap"
  else
    .ok ()

/-- AiterMLAMetadataBuilder.__init__ assertion: block size must be 1. -/
def AiterMLAMetadataBuilder_init (block_size : Nat) : Except String Unit :=
  if block_size = 1 then .ok ()
  else .error "AITER MLA requires only block size 1."

/-- C8 counterexample: sliding_window set to the (falsy) value 0 does not
raise, because the source tests Python truthiness via any([...]), so the
claim that any set argument raises is false. -/
theorem init_truthiness_cex :
    AiterMLAImpl_init true none (some 0) none none = .ok ()
    ∧ (some (0 : Int)) ≠ (none : Option Int) := by
  constructor
  · rfl
  · simp

/-- C8 (amended): construction fails exactly when one of the four feature
arguments is truthy (non-None and nonzero / nonempty), and the metadata
builder constructor fails exactly when block_size is not 1; both are
rejected at construction, so no forward or build call exists on a
successfully constructed object under those configurations. -/
theorem init_rejects_truthy_features (a : Option (List Rat)) (w : Option Int)
    (b : Option (List (String × Nat))) (c : Option Rat) (n : Nat) :
    (AiterMLAImpl_init true a w b c = .ok ()
      ↔ (truthy_alibi a || truthy_window w || truthy_bsp b || truthy_cap c) = false)
    ∧ (AiterMLAMetadataBuilder_init n = .ok () ↔ n = 1) := by
  constructor
  · rw [AiterMLAImpl_init]
    by_cases h : (truthy_alibi a || truthy_window w || truthy_bsp b || truthy_cap c) = true
    · simp [h]
    · simp at h
      simp [h]
  · rw [AiterMLAMetadataBuilder_init]
    by_cases h : n = 1
    · simp [h]
    · simp [h]

/-- The four AITER-specific fields of AiterMLAMetadata; tensors are opaque
references of type τ, so equal fields denote the very same device tensor. -/
structure PagedFields (τ : Type) where
  block_table_bound : Option τ
  paged_kv_indptr : Option τ
  paged_kv_indices : Option τ
  paged_kv_last_page_lens : Option τ
deriving DecidableEq

/-- AiterMLAMetadata as seen by the prefill_metadata / decode_metadata
properties: its own four paged fields plus the views produced by the parent
class properties (MLACommonMetadata is not under src/, so the parent views
are opaque data: their own paged fields and their remaining fields β). -/
structure MetadataModel (τ β : Type) where
  fields : PagedFields τ
  base_prefill_view : Option (PagedFields τ × β)
  base_decode_view : Option (PagedFields τ × β)

/-- AiterMLAMetadata.prefill_metadata: take the parent's prefill view; when it
is not None, overwrite its four paged fields with the parent metadata's
current fields and construct a new object from the resulting dict. -/
def prefill_metadata {τ β : Type} (m : MetadataModel τ β) :
    Option (PagedFields τ × β) :=
  match m.base_prefill_view with
  | none => none
  | some pm => some (m.fields, pm.2)

/-- AiterMLAMetadata.decode_metadata, same splicing as prefill_metadata on the
parent's decode view. -/
def decode_metadata {τ β : Type} (m : MetadataModel τ β) :
    Option (PagedFields τ × β) :=
  match m.base_decode_view with
  | none => none
  | some dm => some (m.fields, dm.2)

/-- C10: whenever the parent's base view is non-None, the property returns a
newly constructed view whose four paged fields are exactly the parent's field
values at access time (the same tensor references, so in-place updates through
the parent stay visible through the view). -/
theorem view_fields_track_parent {τ β : Type} (m : MetadataModel τ β) :
    (∀ b, m.base_prefill_view = some b → prefill_metadata m = some (m.fields, b.2))
    ∧ (∀ b, m.base_decode_view = some b → decode_metadata m = some (m.fields, b.2)) := by
  constructor
  · intro b hb
    rw [prefill_metadata, hb]
  · intro b hb
    rw [decode_metadata, hb]

theorem view_fields_track_parent_witness :
    (MetadataModel.mk (τ := Nat) (β := Nat)
        (PagedFields.mk (some 1) (some 2) (some 3) (some 4))
        (some (PagedFields.mk none none none none, 7)) none).base_prefill_view
      = some (PagedFields.mk none none none none, 7)
    ∧ prefill_metadata
        (MetadataModel.mk (τ := Nat) (β := Nat)
          (PagedFields.mk (some 1) (some 2) (some 3) (some 4))
          (some (PagedFields.mk none none none none, 7)) none)
      = some (PagedFields.mk (some 1) (some 2) (some 3) (some 4), 7) :=
  ⟨rfl,
    (view_fields_track_parent
      (MetadataModel.mk (PagedFields.mk (some 1) (some 2) (some 3) (some 4))
        (some (PagedFields.mk none none none none, 7)) none)).1
      (PagedFields.mk none none none none, 7) rfl⟩

theorem last_page_len_succ (bs s : Nat) (hbs : 0 < bs) :
    last_page_len bs (s + 1)
      = if last_page_len bs s = bs then 1 else last_page_len bs s + 1 := by
  have hr : s % bs < bs := Nat.mod_lt _ hbs
  have hdm : bs * (s / bs) + s % bs = s := Nat.div_add_mod s bs
  have hmod : (s + 1) % bs = (s % bs + 1) % bs := by
    conv_lhs => rw [show s + 1 = s % bs + 1 + bs * (s / bs) by omega]
    rw [Nat.add_mul_mod_self_left]
  by_cases hc : s % bs + 1 = bs
  · have h1 : (s + 1) % bs = 0 := by rw [hmod, hc, Nat.mod_self]
    unfold last_page_len
    split_ifs <;> omega
  · have h1 : (s + 1) % bs = s % bs + 1 := by
      rw [hmod, Nat.mod_eq_of_lt (by omega)]
    unfold last_page_len
    split_ifs <;> omega

theorem block_table_bound_succ (bs s : Nat) (hbs : 0 < bs) :
    block_table_bound bs (s + 1)
      = if s % bs = 0 then block_table_bound bs s + 1 else block_table_bound bs s := by
  have hr : s % bs < bs := Nat.mod_lt _ hbs
  have hdm : bs * (s / bs) + s % bs = s := Nat.div_add_mod s bs
  have hmod : (s + 1) % bs = (s % bs + 1) % bs := by
    conv_lhs => rw [show s + 1 = s % bs + 1 + bs * (s / bs) by omega]
    rw [Nat.add_mul_mod_self_left]
  by_cases hc : s % bs + 1 = bs
  · have h1 : (s + 1) % bs = 0 := by rw [hmod, hc, Nat.mod_self]
    have hdvd : bs ∣ (s + 1) := by
      rw [Nat.dvd_iff_mod_eq_zero]
      exact h1
    have hdiv : (s + 1) / bs = s / bs + 1 := by
      rw [Nat.succ_div, if_pos hdvd]
    unfold block_table_bound
    split_ifs <;> omega
  · have h1 : (s + 1) % bs = s % bs + 1 := by
      rw [hmod, Nat.mod_eq_of_lt (by omega)]
    have hnd : ¬ bs ∣ (s + 1) := by
      rw [Nat.dvd_iff_mod_eq_zero]
      omega
    have hdiv : (s + 1) / bs = s / bs := by
      rw [Nat.succ_div, if_neg hnd]
      omega
    unfold block_table_bound
    split_ifs <;> omega

theorem last_page_len_eq_bs_iff (bs s : Nat) (hbs : 0 < bs) :
    last_page_len bs s = bs ↔ s % bs = 0 := by
  have hr : s % bs < bs := Nat.mod_lt _ hbs
  unfold last_page_len
  split_ifs <;> omega

theorem take_succ_getD (l : List Nat) (n : Nat) (h : n < l.length) :
    l.take (n + 1) = l.take n ++ [l.getD n 0] := by
  rw [List.take_succ, List.getElem?_eq_getElem h, List.getD_eq_getElem _ _ h]
  rfl

/-- Per-sequence decode metadata row: the page list, the sequence length, the
input position, the slot of the newest token, the valid-page sublist and the
last-page length. -/
structure DecodeRow where
  pages : List Nat
  seq_len : Nat
  pos : Nat
  slot : Int
  kv_indices : List Nat
  last_len : Nat
deriving Repr, DecidableEq

/-- Fresh metadata row built from a raw descriptor of a decode sequence of
length s: kv_indices and last_len by the source formulas of
_update_paged_kv_tensors; position s - 1 and its slot by the decode
slot-mapping rule (spec section 4.1, page_list[pos // page_size] flattened). -/
def buildRow (bs : Nat) (pages : List Nat) (s : Nat) : DecodeRow :=
  { pages := pages
    seq_len := s
    pos := s - 1
    slot := ((pages.getD ((s - 1) / bs) 0 * bs + (s - 1) % bs : Nat) : Int)
    kv_indices := pages.take (block_table_bound bs s)
    last_len := last_page_len bs s }

/-- Modelled from the spec: ops.advance_step_flashinfer is an external CUDA
kernel, not under src/. Spec section 4.3: per sequence, the input position
advances by one, the new slot is derived from the unchanged page list at the
new absolute position, and last_page_length is incremented by 1, wrapping to
1 and advancing the page pointer and page index by one page when the previous
page became full. -/
def advanceRow (bs : Nat) (r : DecodeRow) : DecodeRow :=
  { pages := r.pages
    seq_len := r.seq_len + 1
    pos := r.pos + 1
    slot := ((r.pages.getD ((r.pos + 1) / bs) 0 * bs + (r.pos + 1) % bs : Nat) : Int)
    kv_indices := if r.last_len = bs
      then r.kv_indices ++ [r.pages.getD ((r.pos + 1) / bs) 0]
      else r.kv_indices
    last_len := if r.last_len = bs then 1 else r.last_len + 1 }

theorem buildRow_advanceRow (bs : Nat) (pages : List Nat) (s : Nat)
    (hbs : 0 < bs) (hs : 1 ≤ s)
    (hcap : block_table_bound bs (s + 1) ≤ pages.length) :
    buildRow bs pages (s + 1) = advanceRow bs (buildRow bs pages s) := by
  have hpos : s - 1 + 1 = s := by omega
  have hlls := last_page_len_succ bs s hbs
  have hbnd := block_table_bound_succ bs s hbs
  have hiff := last_page_len_eq_bs_iff bs s hbs
  unfold buildRow advanceRow
  simp only [hpos, Nat.add_sub_cancel]
  by_cases h0 : s % bs = 0
  · have hlast : last_page_len bs s = bs := hiff.mpr h0
    have hb1 : block_table_bound bs (s + 1) = block_table_bound bs s + 1 := by
      rw [hbnd, if_pos h0]
    have hbe : block_table_bound bs s = s / bs := by
      unfold block_table_bound
      rw [if_neg (by omega)]
    have hlt : s / bs < pages.length := by omega
    rw [hlls, if_pos hlast, if_pos hlast, hb1, hbe,
      take_succ_getD pages (s / bs) hlt]
  · have hlast : ¬ last_page_len bs s = bs := fun hc => h0 (hiff.mp hc)
    have hb1 : block_table_bound bs (s + 1) = block_table_bound bs s := by
      rw [hbnd, if_neg h0]
    rw [hlls, if_neg hlast, if_neg hlast, hb1]

/-- Fresh metadata rows for a decode-only batch of raw descriptors. -/
def buildRows (bs : Nat) (descs : List SeqDesc) : List DecodeRow :=
  descs.map (fun d => buildRow bs d.1 d.2)

/-- One advance_step over all rows of a decode-only batch. -/
def advance_step (bs : Nat) (rows : List DecodeRow) : List DecodeRow :=
  rows.map (advanceRow bs)

/-- The flattened batch-level page-index array of a list of rows. -/
def rowsIndices (rows : List DecodeRow) : List Nat :=
  (rows.map (fun r => r.kv_indices)).flatten

/-- The batch-level last-page-length array of a list of rows. -/
def rowsLastLens (rows : List DecodeRow) : List Nat :=
  rows.map (fun r => r.last_len)

/-- The batch-level CSR pointer array of a list of rows, starting from a. -/
def rowsIndptr (a : Nat) : List DecodeRow → List Nat
  | [] => [a]
  | r :: rest => a :: rowsIndptr (a + r.kv_indices.length) rest

theorem rowsIndices_build (bs : Nat) (descs : List SeqDesc) :
    rowsIndices (buildRows bs descs) = indicesOf bs descs := by
  unfold rowsIndices buildRows indicesOf
  rw [List.map_map]
  rfl

theorem rowsLastLens_build (bs : Nat) (descs : List SeqDesc) :
    rowsLastLens (buildRows bs descs) = lastLensOf bs descs := by
  unfold rowsLastLens buildRows lastLensOf
  rw [List.map_map]
  rfl

theorem rowsIndptr_build (bs : Nat) (descs : List SeqDesc) :
    ∀ a : Nat, (∀ d ∈ descs, block_table_bound bs d.2 ≤ d.1.length) →
    rowsIndptr a (buildRows bs descs) = cumBounds bs a descs := by
  induction descs with
  | nil => intro a _; rfl
  | cons d rest ih =>
      intro a hcap
      have hd := hcap d (by simp)
      have hkv : (buildRow bs d.1 d.2).kv_indices.length = block_table_bound bs d.2 := by
        simp [buildRow, List.length_take]
        omega
      show rowsIndptr a (buildRow bs d.1 d.2 :: buildRows bs rest) = _
      rw [rowsIndptr, cumBounds, hkv,
        ih (a + block_table_bound bs d.2) (fun x hx => hcap x (by simp [hx]))]

/-- C9: for a decode-only batch with unchanged composition, one advance_step
on the rows built for step N yields exactly the rows a fresh build for step
N + 1 would produce, and the batch-level CSR arrays (pointer, page index,
last-page lengths) rebuilt by the source builder for step N + 1 coincide
with the flattened advanced rows. -/
theorem advance_step_equiv (bs : Nat) (descs : List SeqDesc)
    (hbs : 0 < bs)
    (hdec : ∀ d ∈ descs, 1 ≤ d.2)
    (hcap : ∀ d ∈ descs, block_table_bound bs (d.2 + 1) ≤ d.1.length) :
    buildRows bs (descs.map (fun d => (d.1, d.2 + 1)))
      = advance_step bs (buildRows bs descs)
    ∧ (processBatch bs (descs.map (fun d => (d.1, d.2 + 1)))).paged_kv_indptr
        = rowsIndptr 0 (advance_step bs (buildRows bs descs))
    ∧ (processBatch bs (descs.map (fun d => (d.1, d.2 + 1)))).paged_kv_indices
        = rowsIndices (advance_step bs (buildRows bs descs))
    ∧ (processBatch bs (descs.map (fun d => (d.1, d.2 + 1)))).paged_kv_last_page_lens
        = rowsLastLens (advance_step bs (buildRows bs descs)) := by
  have hrows : buildRows bs (descs.map (fun d => (d.1, d.2 + 1)))
      = advance_step bs (buildRows bs descs) := by
    unfold buildRows advance_step
    rw [List.map_map, List.map_map]
    apply List.map_congr_left
    intro d hd
    exact buildRow_advanceRow bs d.1 d.2 hbs (hdec d hd) (hcap d hd)
  have hcap1 : ∀ d ∈ descs.map (fun d => (d.1, d.2 + 1)),
      block_table_bound bs d.2 ≤ d.1.length := by
    intro d hd
    rw [List.mem_map] at hd
    obtain ⟨x, hx, hxd⟩ := hd
    subst hxd
    exact hcap x hx
  refine ⟨hrows, ?_, ?_, ?_⟩
  · rw [← hrows, processBatch_indptr,
      rowsIndptr_build bs (descs.map (fun d => (d.1, d.2 + 1))) 0 hcap1]
  · rw [← hrows, processBatch_indices,
      rowsIndices_build bs (descs.map (fun d => (d.1, d.2 + 1)))]
  · rw [← hrows, processBatch_lastLens,
      rowsLastLens_build bs (descs.map (fun d => (d.1, d.2 + 1)))]

theorem advance_step_equiv_witness :
    (∀ d ∈ ([([5, 7], 16), ([3], 4)] : List SeqDesc), 1 ≤ d.2)
    ∧ (∀ d ∈ ([([5, 7], 16), ([3], 4)] : List SeqDesc),
        block_table_bound 16 (d.2 + 1) ≤ d.1.length)
    ∧ buildRows 16 (([([5, 7], 16), ([3], 4)] : List SeqDesc).map
        (fun d => (d.1, d.2 + 1)))
      = advance_step 16 (buildRows 16 [([5, 7], 16), ([3], 4)]) :=
  ⟨by decide, by decide,
    (advance_step_equiv 16 [([5, 7], 16), ([3], 4)] (by decide) (by decide)
      (by decide)).1⟩
